import Mathlib

/-!
Verification of the rudis in-memory key-value store (src/src/storage.rs,
src/src/protocol.rs) against its natural-language specification.

Shallow embedding conventions:
* `Instant` is modelled as `Nat`; every operation that calls `Instant::now()`
  in the source takes the current time `now : Nat` as an explicit argument.
* `Bytes` is modelled as `List Nat`.
* The two `DashMap`s of `Storage` are modelled as association lists with
  unique keys.  `DashMap::insert` replaces any existing entry for the key and
  iteration order is unspecified, so the model fixes an arbitrary list order;
  order-sensitive claims are stated as membership, and the FIFO minimum is
  order-independent because timestamps are unique map keys.
* Fallible operations return `Except StorageError _` together with the
  post-state, mirroring `Result<T, StorageError>` plus the `&self` mutation.
-/

set_option autoImplicit false

deriving instance DecidableEq for Except

/-- `StorageError` from src/src/storage.rs. -/
inductive StorageError where
  | KeyNotFound
  | KeyExpired
  | DeserializationError
  deriving DecidableEq, Repr

/-- `ValueEntry` from src/src/storage.rs: stored bytes, optional absolute
expiry instant, and the insertion instant. -/
structure ValueEntry where
  data : List Nat
  expiry : Option Nat
  insertion_time : Nat
  deriving DecidableEq, Repr

/-- `Storage` from src/src/storage.rs: the key-space map and the FIFO index
`fifo_keys : DashMap<Instant, String>`, both modelled as association lists. -/
structure Storage where
  map : List (String × ValueEntry)
  fifo_keys : List (Nat × String)
  deriving DecidableEq, Repr

/-- Lookup in the key-space association list (model of `DashMap::get`). -/
def lookupS (key : String) : List (String × ValueEntry) → Option ValueEntry
  | [] => none
  | (k, v) :: rest => if k = key then some v else lookupS key rest

/-- Removal from the key-space association list (model of `DashMap::remove`);
with unique keys this removes exactly the entry for `key`. -/
def removeS (key : String) : List (String × ValueEntry) → List (String × ValueEntry)
  | [] => []
  | (k, v) :: rest => if k = key then removeS key rest else (k, v) :: removeS key rest

/-- Insert-or-replace in the key-space association list
(model of `DashMap::insert`). -/
def insertS (key : String) (v : ValueEntry) (l : List (String × ValueEntry)) :
    List (String × ValueEntry) :=
  (key, v) :: removeS key l

/-- Lookup in the FIFO index (keyed by the insertion instant). -/
def lookupN (t : Nat) : List (Nat × String) → Option String
  | [] => none
  | (k, v) :: rest => if k = t then some v else lookupN t rest

/-- Removal from the FIFO index (model of `DashMap::remove` on `fifo_keys`). -/
def removeN (t : Nat) : List (Nat × String) → List (Nat × String)
  | [] => []
  | (k, v) :: rest => if k = t then removeN t rest else (k, v) :: removeN t rest

/-- Insert-or-replace in the FIFO index (model of `DashMap::insert` on
`fifo_keys`): a second insertion at the same instant replaces the first. -/
def insertN (t : Nat) (key : String) (l : List (Nat × String)) : List (Nat × String) :=
  (t, key) :: removeN t l

/-- The FIFO entry with the smallest instant
(model of `fifo_keys.iter().min_by_key(|entry| *entry.key())`; timestamps are
unique map keys, so ties cannot occur and the minimum is well-defined). -/
def minFifo : List (Nat × String) → Option (Nat × String)
  | [] => none
  | p :: rest =>
    match minFifo rest with
    | none => some p
    | some q => if p.1 ≤ q.1 then some p else some q

/-- `Storage::new`. -/
def Storage.new : Storage := ⟨[], []⟩

/-- Whether an entry is expired at instant `now`: the source's
`if let Some(expiry) = entry.expiry { if now > expiry { ... } }` test
(strictly past the deadline). -/
def isExpiredAt (now : Nat) (e : ValueEntry) : Bool :=
  match e.expiry with
  | some exp => decide (now > exp)
  | none => false

/-- `Storage::set` (src/src/storage.rs:38-55): stores the entry under the key
and records a FIFO entry at the current instant.  The source returns
`Ok(())` unconditionally, so the model returns just the post-state. -/
def Storage.set (s : Storage) (now : Nat) (key : String) (value : List Nat)
    (ttl : Option Nat) : Storage :=
  let expiry := ttl.map (fun duration => now + duration)
  let entry : ValueEntry := ⟨value, expiry, now⟩
  { map := insertS key entry s.map
    fifo_keys := insertN now key s.fifo_keys }

/-- `Storage::get` (src/src/storage.rs:57-70): returns the bytes when present
and not expired; removes the entry and signals `KeyExpired` when past the
deadline; signals `KeyNotFound` when absent. -/
def Storage.get (s : Storage) (now : Nat) (key : String) :
    Except StorageError (List Nat) × Storage :=
  match lookupS key s.map with
  | none => (.error .KeyNotFound, s)
  | some entry =>
    match entry.expiry with
    | some exp =>
      if now > exp then (.error .KeyExpired, { s with map := removeS key s.map })
      else (.ok entry.data, s)
    | none => (.ok entry.data, s)

/-- `Storage::pop_fifo` (src/src/storage.rs:72-97): takes the FIFO entry with
the smallest instant, removes it from the FIFO index, then removes the
referenced key from the key-space; signals `KeyNotFound` when the FIFO index
is empty or the referenced key is absent, `KeyExpired` when the removed entry
is past its deadline. -/
def Storage.pop_fifo (s : Storage) (now : Nat) :
    Except StorageError (String × List Nat) × Storage :=
  match minFifo s.fifo_keys with
  | none => (.error .KeyNotFound, s)
  | some (time, key) =>
    let s1 : Storage := { s with fifo_keys := removeN time s.fifo_keys }
    match lookupS key s1.map with
    | none => (.error .KeyNotFound, s1)
    | some v =>
      let s2 : Storage := { s1 with map := removeS key s1.map }
      match v.expiry with
      | some exp =>
        if now > exp then (.error .KeyExpired, s2) else (.ok (key, v.data), s2)
      | none => (.ok (key, v.data), s2)

/-- `Storage::delete` (src/src/storage.rs:99-103): removes the key-space entry
only; the source leaves the FIFO index untouched
(`// TODO: Remove from fifo_keys`). -/
def Storage.delete (s : Storage) (key : String) : Except StorageError Unit × Storage :=
  match lookupS key s.map with
  | none => (.error .KeyNotFound, s)
  | some _ => (.ok (), { s with map := removeS key s.map })

/-- `Storage::cleanup_expired` (src/src/storage.rs:105-131): collects the keys
of expired entries, removes each from the key-space (the FIFO index is never
touched by the source), and returns the count. -/
def Storage.cleanup_expired (s : Storage) (now : Nat) : Nat × Storage :=
  let expiredKeys := (s.map.filter (fun p => isExpiredAt now p.2)).map Prod.fst
  let finalMap := expiredKeys.foldl (fun m k => removeS k m) s.map
  (expiredKeys.length, { s with map := finalMap })

/-- The pattern test of `Storage::keys` (src/src/storage.rs:156-158):
`pattern == "*" || (is_wildcard && key.starts_with(&prefix)) ||
(!is_wildcard && key == pattern)`. -/
def matchesPattern (pattern : String) (key : String) : Bool :=
  let is_wildcard := pattern.endsWith "*"
  let pref := if is_wildcard then pattern.dropRight 1 else pattern
  (pattern == "*") || (is_wildcard && key.startsWith pref) ||
    (!is_wildcard && (key == pattern))

/-- `Storage::keys` (src/src/storage.rs:133-164): iterates the key-space,
skips expired entries, and collects the keys matching the pattern. -/
def Storage.keys (s : Storage) (now : Nat) (pattern : String) : List String :=
  s.map.filterMap (fun p =>
    if isExpiredAt now p.2 then none
    else if matchesPattern pattern p.1 then some p.1 else none)

/-- The spec's pattern grammar, stated as written in §4.1 of the spec:
`*` alone matches everything; a trailing `*` is a prefix match; anything else
is an exact match. -/
def specMatches (pattern : String) (key : String) : Bool :=
  if pattern = "*" then true
  else if pattern.endsWith "*" then key.startsWith (pattern.dropRight 1)
  else key == pattern

/-!
Protocol layer, from src/src/protocol.rs.  The wire buffer is modelled as
`List Char`: the source converts the byte buffer to `&str` via
`std::str::from_utf8` before any framing decision except the completeness
check, which only looks for the two-byte sequence `\r\n`; for the claims
settled here the buffer contents are text, so the UTF-8 error path is not
exercised.  The `println!` debug statements have no effect on the result and
are omitted.
-/

/-- `RedisCommand` from src/src/protocol.rs.  Strings carried by commands are
modelled as `List Char` like the wire buffer. -/
inductive RedisCommand where
  | get (key : List Char)
  | set (key : List Char) (value : List Char) (ttl : Option Nat)
  | del (key : List Char)
  | pop
  | ping
  | info
  | keys (pattern : List Char)
  deriving DecidableEq, Repr

/-- `RedisValue` from src/src/protocol.rs. -/
inductive RedisValue where
  | string (s : List Char)
  | bytes (b : List Char)
  | integer (i : Int)
  | nil
  | error (e : List Char)
  | array (a : List RedisValue)

/-- `ProtocolError` from src/src/protocol.rs (the `Io` variant carries a
transport error and is never produced by `parse_command` itself). -/
inductive ProtocolError where
  | InvalidFormat
  | InvalidCommand
  deriving DecidableEq, Repr

/-- Whether the buffer contains the frame terminator, the source's
`buffer.windows(2).any(|window| window == b"\r\n")`. -/
def containsCRLF : List Char → Bool
  | '\r' :: '\n' :: _ => true
  | _ :: rest => containsCRLF rest
  | [] => false

/-- Split on the separator `"\r\n"`, the source's `cmd_str.split("\r\n")`
(keeps empty pieces, including a trailing one). -/
def splitCRLF : List Char → List (List Char)
  | '\r' :: '\n' :: rest => [] :: splitCRLF rest
  | c :: rest =>
    match splitCRLF rest with
    | [] => [[c]]
    | l :: ls => (c :: l) :: ls
  | [] => [[]]

/-- The whitespace characters relevant to this protocol (the source uses
`char::is_whitespace`; commands are ASCII on this wire). -/
def isWhite (c : Char) : Bool :=
  c = ' ' || c = '\r' || c = '\n' || c = '\t'

/-- Strip leading whitespace (half of `str::trim`). -/
def trimL : List Char → List Char
  | [] => []
  | c :: rest => if isWhite c then trimL rest else c :: rest

/-- `str::trim`: strip leading and trailing whitespace. -/
def trimWS (l : List Char) : List Char :=
  ((trimL l.reverse).reverse |> trimL)

/-- Accumulator form of `str::split_whitespace`. -/
def splitWSAux : List Char → List Char → List (List Char)
  | [], acc => if acc = [] then [] else [acc.reverse]
  | c :: rest, acc =>
    if isWhite c then
      if acc = [] then splitWSAux rest []
      else acc.reverse :: splitWSAux rest []
    else splitWSAux rest (c :: acc)

/-- `str::split_whitespace`: whitespace-separated tokens, no empties. -/
def splitWS (l : List Char) : List (List Char) :=
  splitWSAux l []

/-- Whether a piece starts with the given character
(`str::starts_with(char)`). -/
def startsWithChar (c : Char) : List Char → Bool
  | [] => false
  | x :: _ => x = c

/-- The RESP part-extraction loop (src/src/protocol.rs:66-76): starting after
the `*n` header line, a line starting with `$` followed by another line
contributes that following line as a part. -/
def extractParts : List (List Char) → List (List Char)
  | l1 :: l2 :: rest =>
    if startsWithChar '$' l1 then l2 :: extractParts rest
    else extractParts (l2 :: rest)
  | _ => []

/-- `str::to_uppercase` restricted to the ASCII commands on this wire. -/
def toUpperL (l : List Char) : List Char :=
  l.map Char.toUpper

/-- `str::parse::<u64>().ok()`: an optional leading `+`, then one or more
decimal digits, value below `2 ^ 64`. -/
def parseU64 (l : List Char) : Option Nat :=
  let l' := match l with
    | '+' :: rest => rest
    | _ => l
  if l' ≠ [] ∧ l'.all Char.isDigit then
    let n := l'.foldl (fun acc c => acc * 10 + (c.toNat - 48)) 0
    if n < 2 ^ 64 then some n else none
  else none

/-- The command dispatch shared verbatim by the two framing branches of
`parse_command` (src/src/protocol.rs:85-134 and 145-194). -/
def dispatchCommand (parts : List (List Char)) :
    Except ProtocolError (Option RedisCommand) :=
  match parts with
  | [] => .error .InvalidFormat
  | p0 :: _ =>
    let cmd := toUpperL p0
    if cmd = "KEYS".toList then
      match parts.get? 1 with
      | some p1 => .ok (some (.keys p1))
      | none => .error .InvalidFormat
    else if cmd = "GET".toList then
      match parts.get? 1 with
      | some p1 => .ok (some (.get p1))
      | none => .error .InvalidFormat
    else if cmd = "SET".toList then
      match parts.get? 1, parts.get? 2 with
      | some p1, some p2 =>
        let ttl :=
          if parts.length > 4 ∧ toUpperL ((parts.get? 3).getD []) = "EX".toList
          then parseU64 ((parts.get? 4).getD [])
          else none
        .ok (some (.set p1 p2 ttl))
      | _, _ => .error .InvalidFormat
    else if cmd = "DEL".toList then
      match parts.get? 1 with
      | some p1 => .ok (some (.del p1))
      | none => .error .InvalidFormat
    else if cmd = "POP".toList then .ok (some .pop)
    else if cmd = "PING".toList then .ok (some .ping)
    else if cmd = "INFO".toList then .ok (some .info)
    else .error .InvalidCommand

/-- `parse_command` (src/src/protocol.rs:38-196): empty or terminator-free
buffers are incomplete (`Ok(None)`); a buffer starting with `*` is parsed as a
RESP array frame, anything else as a whitespace-delimited simple frame. -/
def parse_command (buffer : List Char) : Except ProtocolError (Option RedisCommand) :=
  if buffer = [] then .ok none
  else if containsCRLF buffer = false then .ok none
  else
    match buffer with
    | '*' :: _ =>
      let lines := splitCRLF buffer
      if lines.length < 3 then .error .InvalidFormat
      else dispatchCommand (extractParts lines.tail)
    | _ => dispatchCommand (splitWS (trimWS buffer))

/-- The source's `parse_command` takes the buffer by mutable reference but
performs no consuming operation on it on any path (in particular not on the
incomplete paths), so the buffer after the call is the buffer before it. -/
def parse_command_mut (buffer : List Char) :
    Except ProtocolError (Option RedisCommand) × List Char :=
  (parse_command buffer, buffer)

/-- The frame terminator. -/
def crlf : List Char := ['\r', '\n']

/-- Decimal rendering of a length field (`usize` / `to_string`). -/
def natChars (n : Nat) : List Char :=
  (toString n).toList

/-- Decimal rendering of an integer field (`i64` / `to_string`). -/
def intChars (i : Int) : List Char :=
  (toString i).toList

mutual

/-- `serialize_response` (src/src/protocol.rs:198-239): the RESP encoding of a
result value. -/
def serialize_response : RedisValue → List Char
  | .string s => '+' :: (s ++ crlf)
  | .integer i => ':' :: (intChars i ++ crlf)
  | .bytes b => '$' :: (natChars b.length ++ crlf ++ b ++ crlf)
  | .nil => '$' :: '-' :: '1' :: crlf
  | .error e => '-' :: (e ++ crlf)
  | .array a => '*' :: (natChars a.length ++ crlf ++ serializeItems a)

/-- The element loop of `serialize_response` on arrays. -/
def serializeItems : List RedisValue → List Char
  | [] => []
  | v :: rest => serialize_response v ++ serializeItems rest

end

/-- Whether the FIFO index of `s` holds no association for key `k`. -/
def noFifoFor (k : String) (s : Storage) : Bool :=
  s.fifo_keys.all (fun p => p.2 != k)

/-- Whether a pop result is a successful pop of key `k`. -/
def isPopFor (k : String) : Except StorageError (String × List Nat) → Bool
  | .ok (key, _) => key == k
  | _ => false

/-- Iterated `pop_fifo`: one call per element of `nows` (the current instant
of each call), collecting the results and threading the state. -/
def popMany (s : Storage) (nows : List Nat) :
    List (Except StorageError (String × List Nat)) × Storage :=
  match nows with
  | [] => ([], s)
  | n :: rest =>
    let r := s.pop_fifo n
    let rs := popMany r.2 rest
    (r.1 :: rs.1, rs.2)

/-- Whether the key-space entry that `key` refers to is expired at `now`
(false when the key is absent). -/
def refersExpired (s : Storage) (now : Nat) (key : String) : Bool :=
  match lookupS key s.map with
  | some e => isExpiredAt now e
  | none => false

/-!
Theorems.  Claim identifiers C1-C10 refer to the frozen claim list for this
repository.
-/

/-- C1: the claim says a stale oldest FIFO entry is discarded and the search
continues to the next-oldest, never returning empty while a later-inserted
live key exists.  The source instead stops: with `k1` inserted at 1 then
deleted, and `k2` live at 2, `pop_fifo` consumes the stale entry for `k1` and
returns `KeyNotFound` even though `k2` is a live later-inserted key. -/
theorem pop_fifo_stops_at_stale_entry :
    ((((Storage.new.set 1 "k1" [1] none).set 2 "k2" [2] none).delete "k1").2.pop_fifo 3).1
        = Except.error StorageError.KeyNotFound
    ∧ lookupS "k2" ((((Storage.new.set 1 "k1" [1] none).set 2 "k2" [2] none).delete "k1").2).map
        = some ⟨[2], none, 2⟩ := by decide

/-- C2: the claim says `delete` removes the key-space entry and every FIFO
association for the key.  The source removes only the key-space entry
(`// TODO: Remove from fifo_keys`): after `set` at 1 and `delete`, the FIFO
association `(1, "k")` is still present; a subsequent pop then consumes it
and yields `KeyNotFound` (so the pop does not return `"k"`, but the FIFO
association was never removed by `delete`). -/
theorem delete_leaves_fifo_association :
    (((Storage.new.set 1 "k" [7] none).delete "k").2).fifo_keys = [(1, "k")]
    ∧ ((((Storage.new.set 1 "k" [7] none).delete "k").2).pop_fifo 2).1
        = Except.error StorageError.KeyNotFound := by decide

/-- C3: the claim says that after overwriting the oldest key `k` and
inserting a fresh `k2`, the first pop returns `k2` and the second returns `k`
(the stale FIFO entry for `k`'s original insertion being skipped).  The
source instead serves `k` first through its original timestamp-1 FIFO entry
(resurrecting the old position), and the second pop consumes the now-stale
timestamp-2 entry and returns `KeyNotFound` although `k2` is live. -/
theorem overwrite_pop_resurrects_old_fifo_position :
    ((((Storage.new.set 1 "k" [1] none).set 2 "k" [9] none).set 3 "k2" [2] none).pop_fifo 4).1
        = Except.ok ("k", [9])
    ∧ (((((Storage.new.set 1 "k" [1] none).set 2 "k" [9] none).set 3 "k2" [2] none).pop_fifo
          4).2.pop_fifo 5).1
        = Except.error StorageError.KeyNotFound := by decide

/-- C5: the claim says the sweep removes expired entries from both the
key-space and the FIFO index.  The source's `cleanup_expired` removes the
expired entry from the key-space and returns the count 1, but leaves the FIFO
association `(1, "k")` in place. -/
theorem cleanup_expired_ignores_fifo_index :
    (Storage.new.set 1 "k" [1] (some 1)).cleanup_expired 5
      = (1, ⟨[], [(1, "k")]⟩) := by decide

/-- C7 counterexample: the claimed encode-then-decode round-trip fails at the
result value `Integer 5`: its encoding `:5\r\n` is decoded by `parse_command`
to `InvalidCommand`, not reproduced as an equivalent value. -/
theorem roundtrip_fails_integer :
    parse_command (serialize_response (RedisValue.integer 5))
      = Except.error ProtocolError.InvalidCommand := by decide

/-- C7 (amended): no encode-then-decode round-trip holds over the result
vocabulary, because the only decoder, `parse_command`, parses request
commands, never result values: decoding the encodings of representative
values of every result kind (status string, integer, bulk bytes, nil, array)
yields `InvalidCommand` or `InvalidFormat` instead of reproducing the
value. -/
theorem no_roundtrip_for_result_values :
    parse_command (serialize_response (RedisValue.string "OK".toList))
      = Except.error ProtocolError.InvalidCommand
    ∧ parse_command (serialize_response (RedisValue.integer 42))
      = Except.error ProtocolError.InvalidCommand
    ∧ parse_command (serialize_response RedisValue.nil)
      = Except.error ProtocolError.InvalidCommand
    ∧ parse_command (serialize_response (RedisValue.bytes "HI".toList))
      = Except.error ProtocolError.InvalidCommand
    ∧ parse_command (serialize_response (RedisValue.array [RedisValue.integer 1]))
      = Except.error ProtocolError.InvalidFormat
    ∧ parse_command (serialize_response (RedisValue.error "ERR".toList))
      = Except.error ProtocolError.InvalidCommand := by decide

/-- C8: a buffer with no complete frame (no `\r\n` terminator anywhere) makes
`parse_command` signal incomplete (`Ok(None)`) and leaves the buffer exactly
as it was, so the next read can extend it. -/
theorem parse_incomplete_leaves_buffer (buffer : List Char)
    (h : containsCRLF buffer = false) :
    parse_command_mut buffer = (Except.ok none, buffer) := by
  unfold parse_command_mut parse_command
  by_cases hb : buffer = [] <;> simp [hb, h]

/-- Witness for C8 at the partial frame `"GE"`. -/
theorem parse_incomplete_leaves_buffer_witness :
    containsCRLF "GE".toList = false
    ∧ parse_command_mut "GE".toList = (Except.ok none, "GE".toList) :=
  ⟨by decide, parse_incomplete_leaves_buffer "GE".toList (by decide)⟩

/-- C4: for every store, instant and key, `get` lands in exactly one of the
three specified outcomes: the key is absent and `KeyNotFound` is signalled
with the store unchanged; the key is present but past its deadline and the
entry is removed while `KeyExpired` is signalled (the expired data is never
returned); or the key is present and live and the stored bytes are returned
with the store unchanged.  Both error kinds are ordinary `Except` values of
the total function `Storage.get` — no panic path exists. -/
theorem get_trichotomy (s : Storage) (now : Nat) (k : String) :
    (lookupS k s.map = none ∧ s.get now k = (Except.error StorageError.KeyNotFound, s))
    ∨ (∃ e, lookupS k s.map = some e ∧ isExpiredAt now e = true ∧
        s.get now k = (Except.error StorageError.KeyExpired, { s with map := removeS k s.map }))
    ∨ (∃ e, lookupS k s.map = some e ∧ isExpiredAt now e = false ∧
        s.get now k = (Except.ok e.data, s)) := by
  cases h : lookupS k s.map with
  | none => exact Or.inl ⟨rfl, by simp [Storage.get, h]⟩
  | some e =>
    cases he : e.expiry with
    | none =>
      exact Or.inr (Or.inr ⟨e, rfl, by simp [isExpiredAt, he], by simp [Storage.get, h, he]⟩)
    | some exp =>
      by_cases hlt : now > exp
      · exact Or.inr (Or.inl ⟨e, rfl, by simp [isExpiredAt, he, hlt],
          by simp [Storage.get, h, he, hlt]⟩)
      · exact Or.inr (Or.inr ⟨e, rfl, by simp [isExpiredAt, he, hlt],
          by simp [Storage.get, h, he, hlt]⟩)

/-- The source's pattern test coincides with the spec's grammar: `*` alone
matches everything, a trailing `*` is a prefix match, anything else is an
exact match. -/
theorem matchesPattern_eq_specMatches (p k : String) :
    matchesPattern p k = specMatches p k := by
  unfold matchesPattern specMatches
  by_cases hp : p = "*"
  · simp [hp]
  · by_cases hw : p.endsWith "*" = true <;> simp [hp, hw]

/-- C6: `keys` returns exactly the non-expired keys selected by the spec's
pattern grammar — a key is in the result iff it is in the key-space with an
entry that is not past its deadline at read time and it matches the grammar
(`*` matches every key, a trailing `*` matches by prefix, any other pattern
matches only itself). -/
theorem keys_exactly (s : Storage) (now : Nat) (p : String) (k : String) :
    k ∈ s.keys now p ↔
      ∃ e, (k, e) ∈ s.map ∧ isExpiredAt now e = false ∧ specMatches p k = true := by
  unfold Storage.keys
  rw [List.mem_filterMap]
  constructor
  · rintro ⟨⟨k', e⟩, hmem, hf⟩
    by_cases hexp : isExpiredAt now e = true
    · simp [hexp] at hf
    · by_cases hm : matchesPattern p k' = true
      · simp [hexp, hm] at hf
        subst hf
        exact ⟨e, hmem, by simpa using hexp,
          by rw [← matchesPattern_eq_specMatches]; exact hm⟩
      · simp [hexp, hm] at hf
  · rintro ⟨e, hmem, hexp, hmatch⟩
    refine ⟨(k, e), hmem, ?_⟩
    have hm : matchesPattern p k = true := by
      rw [matchesPattern_eq_specMatches]; exact hmatch
    simp [hexp, hm]

/-- The minimal FIFO entry, when it exists, is an entry of the index. -/
theorem minFifo_mem : ∀ (l : List (Nat × String)) (p : Nat × String),
    minFifo l = some p → p ∈ l := by
  intro l
  induction l with
  | nil => intro p h; cases h
  | cons q rest ih =>
    intro p h
    unfold minFifo at h
    cases hr : minFifo rest with
    | none =>
      rw [hr] at h
      obtain rfl := Option.some.inj h
      exact List.mem_cons_self _ _
    | some m =>
      rw [hr] at h
      dsimp only at h
      by_cases hle : q.1 ≤ m.1
      · rw [if_pos hle] at h
        obtain rfl := Option.some.inj h
        exact List.mem_cons_self _ _
      · rw [if_neg hle] at h
        obtain rfl := Option.some.inj h
        exact List.mem_cons_of_mem _ (ih _ hr)

/-- Removal from the FIFO index preserves any pointwise property. -/
theorem removeN_all {f : Nat × String → Bool} (t : Nat) :
    ∀ l : List (Nat × String), l.all f = true → (removeN t l).all f = true := by
  intro l
  induction l with
  | nil => intro h; exact h
  | cons q rest ih =>
    intro h
    obtain ⟨k, v⟩ := q
    rw [List.all_cons] at h
    obtain ⟨h1, h2⟩ := Bool.and_eq_true_iff.mp h
    unfold removeN
    by_cases hk : k = t
    · rw [if_pos hk]; exact ih h2
    · rw [if_neg hk, List.all_cons, h1, ih h2]; rfl

/-- Removing a present timestamp strictly shrinks the FIFO index. -/
theorem removeN_length_lt (t : Nat) (k : String) :
    ∀ l : List (Nat × String), (t, k) ∈ l → (removeN t l).length < l.length := by
  have hle : ∀ (l : List (Nat × String)), (removeN t l).length ≤ l.length := by
    intro l
    induction l with
    | nil => exact Nat.le_refl _
    | cons q rest ih =>
      obtain ⟨a, b⟩ := q
      unfold removeN
      by_cases ha : a = t
      · rw [if_pos ha]; exact Nat.le_succ_of_le ih
      · rw [if_neg ha]; exact Nat.succ_le_succ ih
  intro l
  induction l with
  | nil => intro h; cases h
  | cons q rest ih =>
    intro h
    obtain ⟨a, b⟩ := q
    unfold removeN
    by_cases ha : a = t
    · rw [if_pos ha]
      exact Nat.lt_succ_of_le (hle rest)
    · rw [if_neg ha]
      rcases List.mem_cons.mp h with heq | hmem
      · cases heq; exact absurd rfl ha
      · exact Nat.succ_lt_succ (ih hmem)

/-- Removing the timestamp at the head of the FIFO index. -/
theorem removeN_cons_self (t : Nat) (k : String) (l : List (Nat × String)) :
    removeN t ((t, k) :: l) = removeN t l := by
  show (if t = t then removeN t l else (t, k) :: removeN t l) = removeN t l
  rw [if_pos rfl]

/-- Key-space removal passes over an entry with a different key. -/
theorem removeS_cons_ne (key k : String) (v : ValueEntry)
    (l : List (String × ValueEntry)) (h : k ≠ key) :
    removeS key ((k, v) :: l) = (k, v) :: removeS key l := by
  show (if k = key then removeS key l else (k, v) :: removeS key l)
    = (k, v) :: removeS key l
  rw [if_neg h]

/-- A key with no FIFO association is never returned by a single `pop_fifo`,
and the call leaves it without FIFO association. -/
theorem pop_preserves_noFifo (s : Storage) (now : Nat) (k : String)
    (h : noFifoFor k s = true) :
    isPopFor k (s.pop_fifo now).1 = false
    ∧ noFifoFor k (s.pop_fifo now).2 = true := by
  have hall : ∀ t, (removeN t s.fifo_keys).all (fun q => q.2 != k) = true :=
    fun t => removeN_all t _ h
  cases hmin : minFifo s.fifo_keys with
  | none =>
    constructor
    · simp [Storage.pop_fifo, hmin, isPopFor]
    · simp only [Storage.pop_fifo, hmin]
      exact h
  | some p =>
    obtain ⟨t, key⟩ := p
    have hmem := minFifo_mem _ _ hmin
    have hkey : (key == k) = false := by
      have hb := List.all_eq_true.mp h _ hmem
      simpa [bne] using hb
    cases hl : lookupS key s.map with
    | none =>
      constructor
      · simp [Storage.pop_fifo, hmin, hl, isPopFor]
      · simpa [Storage.pop_fifo, hmin, hl, noFifoFor] using hall t
    | some v =>
      cases he : v.expiry with
      | none =>
        constructor
        · simp [Storage.pop_fifo, hmin, hl, he, isPopFor, hkey]
        · simpa [Storage.pop_fifo, hmin, hl, he, noFifoFor] using hall t
      | some exp =>
        by_cases hgt : now > exp
        · constructor
          · simp [Storage.pop_fifo, hmin, hl, he, hgt, isPopFor]
          · simpa [Storage.pop_fifo, hmin, hl, he, hgt, noFifoFor] using hall t
        · constructor
          · simp [Storage.pop_fifo, hmin, hl, he, hgt, isPopFor, hkey]
          · simpa [Storage.pop_fifo, hmin, hl, he, hgt, noFifoFor] using hall t

/-- A key with no FIFO association is never returned by any number of
`pop_fifo` calls, whatever instants they run at. -/
theorem popMany_no_pop (k : String) :
    ∀ (nows : List Nat) (s : Storage), noFifoFor k s = true →
      ((popMany s nows).1.all fun r => !(isPopFor k r)) = true := by
  intro nows
  induction nows with
  | nil => intro s _; rfl
  | cons n rest ih =>
    intro s h
    have step := pop_preserves_noFifo s n k h
    unfold popMany
    rw [List.all_cons, step.1, ih _ step.2]
    rfl

/-- C10: `pop_fifo` is destructive even when it fails.  Whenever the FIFO
index is non-empty (its minimum is the entry `(t, key)`), the call removes
that oldest FIFO entry before checking liveness — strictly shrinking the FIFO
index, so repeated calls drain it — and when the referenced key-space entry
is past its deadline the call also removes that entry and returns
`KeyExpired` without a value. -/
theorem pop_fifo_destructive_on_error (s : Storage) (now t : Nat) (key : String)
    (hmin : minFifo s.fifo_keys = some (t, key)) :
    (s.pop_fifo now).2.fifo_keys = removeN t s.fifo_keys
    ∧ (s.pop_fifo now).2.fifo_keys.length < s.fifo_keys.length
    ∧ (refersExpired s now key = true →
        (s.pop_fifo now).1 = Except.error StorageError.KeyExpired
        ∧ (s.pop_fifo now).2.map = removeS key s.map) := by
  have hmem := minFifo_mem _ _ hmin
  have hlt := removeN_length_lt t key s.fifo_keys hmem
  cases hl : lookupS key s.map with
  | none =>
    have href : refersExpired s now key = false := by simp [refersExpired, hl]
    refine ⟨?_, ?_, fun hex => absurd hex (by rw [href]; exact Bool.false_ne_true)⟩
    · simp [Storage.pop_fifo, hmin, hl]
    · simpa [Storage.pop_fifo, hmin, hl] using hlt
  | some v =>
    cases he : v.expiry with
    | none =>
      have href : refersExpired s now key = false := by
        simp [refersExpired, hl, isExpiredAt, he]
      refine ⟨?_, ?_, fun hex => absurd hex (by rw [href]; exact Bool.false_ne_true)⟩
      · simp [Storage.pop_fifo, hmin, hl, he]
      · simpa [Storage.pop_fifo, hmin, hl, he] using hlt
    | some exp =>
      by_cases hgt : now > exp
      · refine ⟨?_, ?_, fun _ => ⟨?_, ?_⟩⟩
        · simp [Storage.pop_fifo, hmin, hl, he, hgt]
        · simpa [Storage.pop_fifo, hmin, hl, he, hgt] using hlt
        · simp [Storage.pop_fifo, hmin, hl, he, hgt]
        · simp [Storage.pop_fifo, hmin, hl, he, hgt]
      · have href : refersExpired s now key = false := by
          simp [refersExpired, hl, isExpiredAt, he, hgt]
        refine ⟨?_, ?_, fun hex => absurd hex (by rw [href]; exact Bool.false_ne_true)⟩
        · simp [Storage.pop_fifo, hmin, hl, he, hgt]
        · simpa [Storage.pop_fifo, hmin, hl, he, hgt] using hlt

/-- Witness for C10: a one-entry store whose entry expired at instant 1,
popped at instant 5. -/
theorem pop_fifo_destructive_on_error_witness :
    minFifo (Storage.mk [("k", ⟨[7], some 1, 0⟩)] [(0, "k")]).fifo_keys = some (0, "k")
    ∧ ((Storage.mk [("k", ⟨[7], some 1, 0⟩)] [(0, "k")]).pop_fifo 5).2.fifo_keys
        = removeN 0 (Storage.mk [("k", ⟨[7], some 1, 0⟩)] [(0, "k")]).fifo_keys
    ∧ ((Storage.mk [("k", ⟨[7], some 1, 0⟩)] [(0, "k")]).pop_fifo 5).2.fifo_keys.length
        < (Storage.mk [("k", ⟨[7], some 1, 0⟩)] [(0, "k")]).fifo_keys.length
    ∧ (refersExpired (Storage.mk [("k", ⟨[7], some 1, 0⟩)] [(0, "k")]) 5 "k" = true →
        ((Storage.mk [("k", ⟨[7], some 1, 0⟩)] [(0, "k")]).pop_fifo 5).1
          = Except.error StorageError.KeyExpired
        ∧ ((Storage.mk [("k", ⟨[7], some 1, 0⟩)] [(0, "k")]).pop_fifo 5).2.map
          = removeS "k" (Storage.mk [("k", ⟨[7], some 1, 0⟩)] [(0, "k")]).map) :=
  ⟨by decide, pop_fifo_destructive_on_error _ 5 0 "k" (by decide)⟩

/-- C9: the FIFO index is keyed by the insertion instant, so two `set` calls
on distinct keys `k1` then `k2` recording the identical instant leave `k2`'s
association in place of `k1`'s: `k1` is still in the key-space and `get`
returns its bytes, but no FIFO entry for `k1` exists and no sequence of
`pop_fifo` calls can ever return `k1`. -/
theorem set_same_timestamp_drops_first_key (s0 : Storage) (t : Nat) (k1 k2 : String)
    (v1 v2 : List Nat) (now : Nat) (nows : List Nat)
    (hne : k1 ≠ k2) (h0 : noFifoFor k1 s0 = true) :
    (((s0.set t k1 v1 none).set t k2 v2 none).get now k1).1 = Except.ok v1
    ∧ noFifoFor k1 ((s0.set t k1 v1 none).set t k2 v2 none) = true
    ∧ ((popMany ((s0.set t k1 v1 none).set t k2 v2 none) nows).1.all
        fun r => !(isPopFor k1 r)) = true := by
  have hfifo : noFifoFor k1 ((s0.set t k1 v1 none).set t k2 v2 none) = true := by
    unfold noFifoFor
    show ((t, k2) :: removeN t ((t, k1) :: removeN t s0.fifo_keys)).all
      (fun p => p.2 != k1) = true
    rw [removeN_cons_self, List.all_cons]
    have h1 : ((t, k2).2 != k1) = true := bne_iff_ne.mpr (Ne.symm hne)
    rw [h1, removeN_all t _ (removeN_all t _ h0)]
    rfl
  have hlook : lookupS k1 ((s0.set t k1 v1 none).set t k2 v2 none).map
      = some ⟨v1, none, t⟩ := by
    have hmap : ((s0.set t k1 v1 none).set t k2 v2 none).map
        = (k2, ⟨v2, none, t⟩) :: (k1, ⟨v1, none, t⟩)
            :: removeS k2 (removeS k1 s0.map) := by
      show (k2, (⟨v2, none, t⟩ : ValueEntry))
          :: removeS k2 ((k1, ⟨v1, none, t⟩) :: removeS k1 s0.map)
        = (k2, ⟨v2, none, t⟩) :: (k1, ⟨v1, none, t⟩) :: removeS k2 (removeS k1 s0.map)
      rw [removeS_cons_ne k2 k1 _ _ hne]
    rw [hmap]
    show (if k2 = k1 then some (⟨v2, none, t⟩ : ValueEntry)
        else lookupS k1 ((k1, ⟨v1, none, t⟩) :: removeS k2 (removeS k1 s0.map)))
      = some ⟨v1, none, t⟩
    rw [if_neg (Ne.symm hne)]
    show (if k1 = k1 then some (⟨v1, none, t⟩ : ValueEntry)
        else lookupS k1 (removeS k2 (removeS k1 s0.map))) = some ⟨v1, none, t⟩
    rw [if_pos rfl]
  refine ⟨?_, hfifo, popMany_no_pop k1 nows _ hfifo⟩
  simp [Storage.get, hlook]

/-- Witness for C9: keys `"a"` then `"b"` both recorded at instant 0 in the
fresh store, followed by three pops. -/
theorem set_same_timestamp_drops_first_key_witness :
    ("a" : String) ≠ "b"
    ∧ noFifoFor "a" Storage.new = true
    ∧ (((Storage.new.set 0 "a" [1] none).set 0 "b" [2] none).get 7 "a").1 = Except.ok [1]
    ∧ noFifoFor "a" ((Storage.new.set 0 "a" [1] none).set 0 "b" [2] none) = true
    ∧ ((popMany ((Storage.new.set 0 "a" [1] none).set 0 "b" [2] none) [1, 2, 3]).1.all
        fun r => !(isPopFor "a" r)) = true :=
  ⟨by decide, by decide,
    set_same_timestamp_drops_first_key Storage.new 0 "a" "b" [1] [2] 7 [1, 2, 3]
      (by decide) (by decide)⟩
